import Mathlib

/-!
Verification of the defsystemdashboard repository's two core mechanisms:

* the relational-to-hierarchy graph builder, duplicated across
  `catapultdashboardsrc/mission.py`, `catapultdashboardsrc/functionalarchitecture.py`,
  `catapultdashboardsrc/architecture.py` and
  `catapultdashboardsrc/systemlogicalarchitecture.py`: each view iterates the rows
  of a dataframe and, per row, walks an ordered list of hierarchy level columns,
  adding a node for every present value and a labeled edge for every consecutive
  pair of present values, into a `graphviz.Digraph(strict=True)` (strict DOT
  semantics deduplicate repeated node and edge statements);

* the tab dispatcher `show_tab` of `app.py` (lines 154-204), which resolves a
  renderer for a tab name in priority order (Home Page sentinel, profile-specific
  dynamic import, root-level dynamic import, generic CSV preview fallback).
-/

/-- A tabular record, as the builder loops consume one: an association list from
column name to value. `none` models an absent value: a NaN cell or a missing
column, exactly the values for which the source's guard `pd.notna(row.get(col))`
is false. -/
abbrev Row := List (String × Option String)

/-- The source's `row.get(col)` combined with the `pd.notna` guard: the value at
a column, `none` when the column is missing or its value is absent. -/
def Row.get : Row → String → Option String
  | [], _ => none
  | (k, v) :: rest, col => if k = col then v else Row.get rest col

/-- The directed graph a `graphviz.Digraph(strict=True)` denotes: the node names
and the labeled edge triples (parent, child, label) declared by its body. -/
structure DotGraph where
  nodes : List String
  edges : List (String × String × String)
deriving DecidableEq

/-- The effect of `dot.node(v)` on the strict digraph: a node statement for an
already-declared name is merged away by strict DOT semantics, so insertion of an
existing node is a no-op. -/
def DotGraph.node (g : DotGraph) (v : String) : DotGraph :=
  if v ∈ g.nodes then g else { g with nodes := g.nodes ++ [v] }

/-- The effect of `dot.edge(p, c, label=lab)` on the strict digraph: a repeated
identical edge statement is merged away, so inserting an existing triple is a
no-op. -/
def DotGraph.edge (g : DotGraph) (p c lab : String) : DotGraph :=
  if (p, c, lab) ∈ g.edges then g else { g with edges := g.edges ++ [(p, c, lab)] }

/-- The per-row builder body after the first level column, generalized over the
level list exactly as the five hard-coded copies instantiate it (for example
`systemlogicalarchitecture.render` lines 203-225 with levels
SOI, Subsystem, Assembly, Component): for each further level, when its value is
present add its node, and when the previous level's value is also present add
the edge labeled with that consecutive pair's label. `prev` carries the previous
level's value and `labels` the labels of the remaining consecutive pairs. -/
def insertLevels (r : Row) : Option String → List String → List String → DotGraph → DotGraph
  | _, [], _, g => g
  | prev, lev :: rest, labels, g =>
    let v := Row.get r lev
    let g1 :=
      match v with
      | none => g
      | some c =>
        match prev, labels.head? with
        | some p, some lab => (g.node c).edge p c lab
        | some _, none => g.node c
        | none, _ => g.node c
    insertLevels r v rest labels.tail g1

/-- One row's full contribution: the first level's value only receives a node
(`if pd.notna(mission): dot.node(str(mission))`), the later levels receive nodes
and consecutive parent-to-child edges. -/
def insertRow (levels labels : List String) (g : DotGraph) (r : Row) : DotGraph :=
  match levels with
  | [] => g
  | l0 :: rest =>
    let g0 :=
      match Row.get r l0 with
      | some v => g.node v
      | none => g
    insertLevels r (Row.get r l0) rest labels g0

/-- The builder loop `for _, row in df.iterrows(): ...`: fold every record into
an initially empty strict digraph. -/
def buildGraph (records : List Row) (levels labels : List String) : DotGraph :=
  records.foldl (insertRow levels labels) ⟨[], []⟩

/-- The present values of one record along the level columns. -/
def rowValues (r : Row) (levels : List String) : List String :=
  levels.filterMap (Row.get r)

/-- The labeled edges one record generates along a level chain, given the
previous level's value: the specification-side mirror of `insertLevels`. -/
def chainEdges (r : Row) : Option String → List String → List String → List (String × String × String)
  | _, [], _ => []
  | prev, lev :: rest, labels =>
    (match prev, Row.get r lev, labels.head? with
     | some p, some c, some lab => [(p, c, lab)]
     | some _, some _, none => []
     | some _, none, _ => []
     | none, _, _ => []) ++ chainEdges r (Row.get r lev) rest labels.tail

/-- The labeled edges one record generates: the specification-side mirror of
`insertRow`. -/
def rowEdges (r : Row) (levels labels : List String) : List (String × String × String) :=
  match levels with
  | [] => []
  | l0 :: rest => chainEdges r (Row.get r l0) rest labels

/-- The edge a record generates at consecutive level pair `i` (from the value at
`levels[i]` to the value at `levels[i+1]`, labeled `labels[i]`), when both
endpoint values are present. -/
def edgeAt (r : Row) (levels labels : List String) (i : Nat) : Option (String × String × String) := do
  let pl ← levels[i]?
  let cl ← levels[i + 1]?
  let lab ← labels[i]?
  let p ← Row.get r pl
  let c ← Row.get r cl
  pure (p, c, lab)

/-- The subsystem filter of `systemlogicalarchitecture.render` line 236,
`completesystemsdf[completesystemsdf["Subsystem"].isin(subsystemopts)]`: keep
the records whose value at the filter level is a member of the selection (an
absent value is never a member, matching pandas `isin`). -/
def filterRows (records : List Row) (filterLevel : String) (selected : List String) : List Row :=
  records.filter fun r =>
    match Row.get r filterLevel with
    | some v => selected.contains v
    | none => false

/-- The builder's error taxonomy from the specification. -/
inductive BuildError
  | SchemaError
deriving DecidableEq

/-- Modelled from the spec: the generalized `build(records, levels, edge_labels)`
operation of section 4.1 does not exist in the source (each view module
hard-codes its level columns and labels, and no cardinality check appears
anywhere); per the spec it fails with SchemaError if and only if the label count
differs from the level count minus one, and otherwise runs the builder loop the
view modules share, with no other failure mode. -/
def build (records : List Row) (levels labels : List String) : Except BuildError DotGraph :=
  if (labels.length : Int) ≠ (levels.length : Int) - 1 then .error .SchemaError
  else .ok (buildGraph records levels labels)

example :
    buildGraph [[("Mission", some "M1"), ("Env", some "E1")],
                [("Mission", some "M1"), ("Env", some "E1")]]
      ["Mission", "Env"] ["has environment"]
      = ⟨["M1", "E1"], [("M1", "E1", "has environment")]⟩ := by decide

example :
    buildGraph [[("SOI", some "S"), ("Subsystem", none)]]
      ["SOI", "Subsystem"] ["has subsystem"] = ⟨["S"], []⟩ := by decide

lemma nodes_edge (g : DotGraph) (p c lab : String) : (g.edge p c lab).nodes = g.nodes := by
  unfold DotGraph.edge; split <;> rfl

lemma edges_node (g : DotGraph) (v : String) : (g.node v).edges = g.edges := by
  unfold DotGraph.node; split <;> rfl

lemma mem_nodes_node (g : DotGraph) (v w : String) :
    w ∈ (g.node v).nodes ↔ w ∈ g.nodes ∨ w = v := by
  unfold DotGraph.node
  split
  · constructor
    · exact Or.inl
    · rintro (hh | rfl)
      · exact hh
      · assumption
  · simp [List.mem_append]

lemma mem_edges_edge (g : DotGraph) (p c lab : String) (e : String × String × String) :
    e ∈ (g.edge p c lab).edges ↔ e ∈ g.edges ∨ e = (p, c, lab) := by
  unfold DotGraph.edge
  split
  · constructor
    · exact Or.inl
    · rintro (hh | rfl)
      · exact hh
      · assumption
  · simp [List.mem_append]

lemma rowValues_nil (r : Row) : rowValues r [] = [] := rfl

lemma rowValues_cons_none (r : Row) (lev : String) (rest : List String)
    (h : Row.get r lev = none) : rowValues r (lev :: rest) = rowValues r rest := by
  simp [rowValues, List.filterMap_cons_none h]

lemma rowValues_cons_some (r : Row) (lev c : String) (rest : List String)
    (h : Row.get r lev = some c) : rowValues r (lev :: rest) = c :: rowValues r rest := by
  simp [rowValues, List.filterMap_cons_some h]

lemma mem_nodes_insertLevels (r : Row) (w : String) :
    ∀ (levs : List String) (prev : Option String) (labels : List String) (g : DotGraph),
      w ∈ (insertLevels r prev levs labels g).nodes ↔ w ∈ g.nodes ∨ w ∈ rowValues r levs := by
  intro levs
  induction levs with
  | nil => intro prev labels g; simp [insertLevels, rowValues]
  | cons lev rest ih =>
    intro prev labels g
    simp only [insertLevels]
    rw [ih]
    cases hv : Row.get r lev with
    | none => rw [rowValues_cons_none r lev rest hv]
    | some c =>
      rw [rowValues_cons_some r lev c rest hv]
      cases prev <;> cases hl : labels.head? <;>
        simp only [List.mem_cons, nodes_edge, mem_nodes_node] <;> tauto

lemma mem_edges_insertLevels (r : Row) (e : String × String × String) :
    ∀ (levs : List String) (prev : Option String) (labels : List String) (g : DotGraph),
      e ∈ (insertLevels r prev levs labels g).edges ↔
        e ∈ g.edges ∨ e ∈ chainEdges r prev levs labels := by
  intro levs
  induction levs with
  | nil => intro prev labels g; simp [insertLevels, chainEdges]
  | cons lev rest ih =>
    intro prev labels g
    simp only [insertLevels, chainEdges]
    rw [ih]
    cases hv : Row.get r lev <;> cases prev <;> cases hl : labels.head? <;>
      · simp only [edges_node, mem_edges_edge, List.mem_append, List.mem_cons,
          List.not_mem_nil, List.nil_append, List.mem_singleton, List.singleton_append]
        try tauto

lemma mem_nodes_insertRow (levels labels : List String) (g : DotGraph) (r : Row) (w : String) :
    w ∈ (insertRow levels labels g r).nodes ↔ w ∈ g.nodes ∨ w ∈ rowValues r levels := by
  cases levels with
  | nil => simp [insertRow, rowValues]
  | cons l0 rest =>
    simp only [insertRow]
    rw [mem_nodes_insertLevels]
    cases hv : Row.get r l0 with
    | none => rw [rowValues_cons_none r l0 rest hv]
    | some c =>
      rw [rowValues_cons_some r l0 c rest hv]
      simp only [mem_nodes_node, List.mem_cons]
      tauto

lemma mem_edges_insertRow (levels labels : List String) (g : DotGraph) (r : Row)
    (e : String × String × String) :
    e ∈ (insertRow levels labels g r).edges ↔ e ∈ g.edges ∨ e ∈ rowEdges r levels labels := by
  cases levels with
  | nil => simp [insertRow, rowEdges]
  | cons l0 rest =>
    simp only [insertRow, rowEdges]
    rw [mem_edges_insertLevels]
    cases hv : Row.get r l0 <;> simp [edges_node]

lemma mem_nodes_foldl (levels labels : List String) (w : String) :
    ∀ (records : List Row) (g : DotGraph),
      w ∈ (records.foldl (insertRow levels labels) g).nodes ↔
        w ∈ g.nodes ∨ ∃ r ∈ records, w ∈ rowValues r levels := by
  intro records
  induction records with
  | nil => intro g; simp
  | cons r rs ih =>
    intro g
    simp only [List.foldl_cons]
    rw [ih, mem_nodes_insertRow]
    simp only [List.mem_cons, exists_eq_or_imp]
    tauto

lemma mem_edges_foldl (levels labels : List String) (e : String × String × String) :
    ∀ (records : List Row) (g : DotGraph),
      e ∈ (records.foldl (insertRow levels labels) g).edges ↔
        e ∈ g.edges ∨ ∃ r ∈ records, e ∈ rowEdges r levels labels := by
  intro records
  induction records with
  | nil => intro g; simp
  | cons r rs ih =>
    intro g
    simp only [List.foldl_cons]
    rw [ih, mem_edges_insertRow]
    simp only [List.mem_cons, exists_eq_or_imp]
    tauto

lemma mem_nodes_buildGraph (records : List Row) (levels labels : List String) (w : String) :
    w ∈ (buildGraph records levels labels).nodes ↔ ∃ r ∈ records, w ∈ rowValues r levels := by
  rw [buildGraph, mem_nodes_foldl]
  simp

lemma mem_edges_buildGraph (records : List Row) (levels labels : List String)
    (e : String × String × String) :
    e ∈ (buildGraph records levels labels).edges ↔
      ∃ r ∈ records, e ∈ rowEdges r levels labels := by
  rw [buildGraph, mem_edges_foldl]
  simp

lemma mem_rowValues (r : Row) (levels : List String) (w : String) :
    w ∈ rowValues r levels ↔ ∃ lev ∈ levels, Row.get r lev = some w := by
  simp [rowValues, List.mem_filterMap]

lemma getElem?_tail_aux (labels : List String) (i : Nat) : labels.tail[i]? = labels[i + 1]? := by
  cases labels <;> simp

lemma edgeAt_succ (r : Row) (l0 : String) (ls labels : List String) (i : Nat) :
    edgeAt r (l0 :: ls) labels (i + 1) = edgeAt r ls labels.tail i := by
  simp [edgeAt, getElem?_tail_aux]

lemma chainEdges_cons_eq (r : Row) (l0 l1 : String) (rest' labels : List String) :
    chainEdges r (Row.get r l0) (l1 :: rest') labels =
      (edgeAt r (l0 :: l1 :: rest') labels 0).toList ++
        chainEdges r (Row.get r l1) rest' labels.tail := by
  cases labels with
  | nil =>
    rcases hp : Row.get r l0 with _ | p <;> rcases hc : Row.get r l1 with _ | c <;>
      simp [chainEdges, edgeAt, hp, hc]
  | cons la lb =>
    rcases hp : Row.get r l0 with _ | p <;> rcases hc : Row.get r l1 with _ | c <;>
      simp [chainEdges, edgeAt, hp, hc]

lemma mem_chainEdges_iff (r : Row) :
    ∀ (rest : List String) (l0 : String) (labels : List String) (e : String × String × String),
      e ∈ chainEdges r (Row.get r l0) rest labels ↔
        ∃ i, edgeAt r (l0 :: rest) labels i = some e := by
  intro rest
  induction rest with
  | nil =>
    intro l0 labels e
    simp [chainEdges, edgeAt, Option.bind_eq_some]
  | cons l1 rest' ih =>
    intro l0 labels e
    rw [chainEdges_cons_eq, List.mem_append, ih l1 labels.tail e]
    constructor
    · rintro (hhead | ⟨i, hi⟩)
      · exact ⟨0, by simpa using hhead⟩
      · exact ⟨i + 1, by rw [edgeAt_succ]; exact hi⟩
    · rintro ⟨i, hi⟩
      cases i with
      | zero => exact Or.inl (by simpa using hi)
      | succ j => exact Or.inr ⟨j, by rw [edgeAt_succ] at hi; exact hi⟩

lemma mem_rowEdges_iff (r : Row) (levels labels : List String) (e : String × String × String) :
    e ∈ rowEdges r levels labels ↔ ∃ i, edgeAt r levels labels i = some e := by
  cases levels with
  | nil => simp [rowEdges, edgeAt, Option.bind_eq_some]
  | cons l0 rest => rw [rowEdges, mem_chainEdges_iff]

lemma mem_rowValues_cons_of (r : Row) (lev : String) (rest : List String) (w : String)
    (h : w ∈ rowValues r rest) : w ∈ rowValues r (lev :: rest) := by
  cases hv : Row.get r lev with
  | none => rw [rowValues_cons_none r lev rest hv]; exact h
  | some c => rw [rowValues_cons_some r lev c rest hv]; exact List.mem_cons_of_mem _ h

lemma mem_rowValues_of_get (r : Row) (lev : String) (rest : List String) (w : String)
    (h : Row.get r lev = some w) : w ∈ rowValues r (lev :: rest) := by
  rw [rowValues_cons_some r lev w rest h]
  exact List.mem_cons_self _ _

lemma chainEdges_endpoints (r : Row) :
    ∀ (rest : List String) (prev : Option String) (labels : List String)
      (e : String × String × String), e ∈ chainEdges r prev rest labels →
        (e.1 ∈ prev.toList ∨ e.1 ∈ rowValues r rest) ∧ e.2.1 ∈ rowValues r rest := by
  intro rest
  induction rest with
  | nil => intro prev labels e h; simp [chainEdges] at h
  | cons lev rest' ih =>
    intro prev labels e h
    simp only [chainEdges, List.mem_append] at h
    rcases h with hhead | htail
    · cases prev with
      | none =>
        rcases hc : Row.get r lev with _ | c <;> rw [hc] at hhead <;> simp at hhead
      | some p =>
        rcases hc : Row.get r lev with _ | c <;> rw [hc] at hhead
        · rcases hl : labels.head? with _ | lab <;> rw [hl] at hhead <;> simp at hhead
        · rcases hl : labels.head? with _ | lab <;> rw [hl] at hhead <;> simp at hhead
          subst hhead
          refine ⟨Or.inl (by simp), ?_⟩
          exact mem_rowValues_of_get r lev rest' c hc
    · obtain ⟨h1, hcc⟩ := ih (Row.get r lev) labels.tail e htail
      constructor
      · rcases h1 with hprev | hrest
        · rcases hv : Row.get r lev with _ | c <;> rw [hv] at hprev <;> simp at hprev
          exact Or.inr (mem_rowValues_of_get r lev rest' e.1 (by rw [hv, hprev]))
        · exact Or.inr (mem_rowValues_cons_of r lev rest' e.1 hrest)
      · exact mem_rowValues_cons_of r lev rest' e.2.1 hcc

lemma rowEdges_endpoints (r : Row) (levels labels : List String) (e : String × String × String)
    (h : e ∈ rowEdges r levels labels) :
    e.1 ∈ rowValues r levels ∧ e.2.1 ∈ rowValues r levels := by
  cases levels with
  | nil => simp [rowEdges] at h
  | cons l0 rest =>
    rw [rowEdges] at h
    obtain ⟨h1, hcc⟩ := chainEdges_endpoints r rest (Row.get r l0) labels e h
    constructor
    · rcases h1 with hprev | hrest
      · rcases hv : Row.get r l0 with _ | c <;> rw [hv] at hprev <;> simp at hprev
        exact mem_rowValues_of_get r l0 rest e.1 (by rw [hv, hprev])
      · exact mem_rowValues_cons_of r l0 rest e.1 hrest
    · exact mem_rowValues_cons_of r l0 rest e.2.1 hcc

lemma edges_endpoints_in_nodes (records : List Row) (levels labels : List String)
    (e : String × String × String) (h : e ∈ (buildGraph records levels labels).edges) :
    e.1 ∈ (buildGraph records levels labels).nodes ∧
      e.2.1 ∈ (buildGraph records levels labels).nodes := by
  rw [mem_edges_buildGraph] at h
  obtain ⟨r, hr, he⟩ := h
  obtain ⟨hp, hc⟩ := rowEdges_endpoints r levels labels e he
  exact ⟨(mem_nodes_buildGraph records levels labels e.1).mpr ⟨r, hr, hp⟩,
    (mem_nodes_buildGraph records levels labels e.2.1).mpr ⟨r, hr, hc⟩⟩

/-- The Scenario A record: Mission M1 with environment E1. -/
def rowM1E1 : Row := [("Mission", some "M1"), ("Env", some "E1")]

/-- A second mission record, used to witness order independence. -/
def rowM2E2 : Row := [("Mission", some "M2"), ("Env", some "E2")]

/-- The Scenario B record: SOI S with the Subsystem value absent. -/
def rowS : Row := [("SOI", some "S"), ("Subsystem", none)]

/-- A record whose parent value (SOI) is absent while the child value
(Subsystem) is present. -/
def rowChildOnly : Row := [("SOI", none), ("Subsystem", some "B")]

/-- A record with SOI and Assembly present but the intermediate Subsystem
level absent. -/
def rowGap : Row := [("SOI", some "S"), ("Assembly", some "A")]

/-- C1: building from R ++ R yields the same node set and the same set of
(parent, child, label) edge triples as building from R alone; on the duplicated
Mission/Env record the graph is exactly nodes M1, E1 with the single edge
(M1, E1, has environment). -/
theorem build_idempotent_duplicates (records : List Row) (levels labels : List String) :
    (∀ v, v ∈ (buildGraph (records ++ records) levels labels).nodes ↔
      v ∈ (buildGraph records levels labels).nodes) ∧
    (∀ e, e ∈ (buildGraph (records ++ records) levels labels).edges ↔
      e ∈ (buildGraph records levels labels).edges) ∧
    buildGraph [rowM1E1, rowM1E1] ["Mission", "Env"] ["has environment"]
      = ⟨["M1", "E1"], [("M1", "E1", "has environment")]⟩ := by
  refine ⟨fun v => ?_, fun e => ?_, by decide⟩
  · rw [mem_nodes_buildGraph, mem_nodes_buildGraph]
    constructor
    · rintro ⟨r, hr, hv⟩
      rcases List.mem_append.mp hr with h | h <;> exact ⟨r, h, hv⟩
    · rintro ⟨r, hr, hv⟩
      exact ⟨r, List.mem_append.mpr (Or.inl hr), hv⟩
  · rw [mem_edges_buildGraph, mem_edges_buildGraph]
    constructor
    · rintro ⟨r, hr, he⟩
      rcases List.mem_append.mp hr with h | h <;> exact ⟨r, h, he⟩
    · rintro ⟨r, hr, he⟩
      exact ⟨r, List.mem_append.mpr (Or.inl hr), he⟩

/-- C9: a permutation of the record sequence builds the same node set and the
same set of edge triples; input order only determines insertion order. -/
theorem build_perm_invariant (records pr : List Row) (levels labels : List String)
    (h : records.Perm pr) :
    (∀ v, v ∈ (buildGraph pr levels labels).nodes ↔
      v ∈ (buildGraph records levels labels).nodes) ∧
    (∀ e, e ∈ (buildGraph pr levels labels).edges ↔
      e ∈ (buildGraph records levels labels).edges) := by
  constructor
  · intro v
    rw [mem_nodes_buildGraph, mem_nodes_buildGraph]
    constructor
    · rintro ⟨r, hr, hv⟩
      exact ⟨r, h.mem_iff.mpr hr, hv⟩
    · rintro ⟨r, hr, hv⟩
      exact ⟨r, h.mem_iff.mp hr, hv⟩
  · intro e
    rw [mem_edges_buildGraph, mem_edges_buildGraph]
    constructor
    · rintro ⟨r, hr, he⟩
      exact ⟨r, h.mem_iff.mpr hr, he⟩
    · rintro ⟨r, hr, he⟩
      exact ⟨r, h.mem_iff.mp hr, he⟩

/-- Witness for C9: the two-record sequence and its swap build identical node
and edge sets. -/
theorem build_perm_invariant_witness :
    (∀ v, v ∈ (buildGraph [rowM2E2, rowM1E1] ["Mission", "Env"] ["has environment"]).nodes ↔
      v ∈ (buildGraph [rowM1E1, rowM2E2] ["Mission", "Env"] ["has environment"]).nodes) ∧
    (∀ e, e ∈ (buildGraph [rowM2E2, rowM1E1] ["Mission", "Env"] ["has environment"]).edges ↔
      e ∈ (buildGraph [rowM1E1, rowM2E2] ["Mission", "Env"] ["has environment"]).edges) :=
  build_perm_invariant [rowM1E1, rowM2E2] [rowM2E2, rowM1E1] ["Mission", "Env"]
    ["has environment"] (List.Perm.swap rowM2E2 rowM1E1 [])

/-- C4: the graph built from the filtered record subset has node and edge sets
included in those of the graph built from all records: the filter never
synthesizes nodes or edges. -/
theorem subgraph_subset_monotone (records : List Row) (levels labels : List String)
    (filterLevel : String) (selected : List String) :
    (∀ v, v ∈ (buildGraph (filterRows records filterLevel selected) levels labels).nodes →
      v ∈ (buildGraph records levels labels).nodes) ∧
    (∀ e, e ∈ (buildGraph (filterRows records filterLevel selected) levels labels).edges →
      e ∈ (buildGraph records levels labels).edges) := by
  constructor
  · intro v hv
    rw [mem_nodes_buildGraph] at hv ⊢
    obtain ⟨r, hr, hval⟩ := hv
    exact ⟨r, List.mem_of_mem_filter hr, hval⟩
  · intro e he
    rw [mem_edges_buildGraph] at he ⊢
    obtain ⟨r, hr, hre⟩ := he
    exact ⟨r, List.mem_of_mem_filter hr, hre⟩

/-- C8: a node exists in the built graph if and only if its string value is
non-absent in at least one record at some level, or it is an endpoint of some
edge of the graph. -/
theorem node_exists_iff_value_or_endpoint (records : List Row) (levels labels : List String)
    (v : String) :
    v ∈ (buildGraph records levels labels).nodes ↔
      (∃ r ∈ records, ∃ lev ∈ levels, Row.get r lev = some v) ∨
      (∃ e ∈ (buildGraph records levels labels).edges, e.1 = v ∨ e.2.1 = v) := by
  constructor
  · intro h
    rw [mem_nodes_buildGraph] at h
    obtain ⟨r, hr, hv⟩ := h
    exact Or.inl ⟨r, hr, (mem_rowValues r levels v).mp hv⟩
  · rintro (⟨r, hr, hlev⟩ | ⟨e, he, hend⟩)
    · rw [mem_nodes_buildGraph]
      exact ⟨r, hr, (mem_rowValues r levels v).mpr hlev⟩
    · obtain ⟨h1, h2⟩ := edges_endpoints_in_nodes records levels labels e he
      rcases hend with rfl | rfl
      · exact h1
      · exact h2

lemma mem_of_getElem?_aux (l : List String) (i : Nat) (a : String) (h : l[i]? = some a) :
    a ∈ l :=
  List.getElem?_mem h

/-- C2: a record whose child value is present while the parent value is absent
at a consecutive level pair contributes the child node and generates zero edges
at that level pair; the single record with SOI S and Subsystem absent yields
exactly node S and no edges. -/
theorem absent_parent_no_edge (records : List Row) (r : Row) (levels labels : List String)
    (i : Nat) (pl cl c : String) (hr : r ∈ records)
    (hpl : levels[i]? = some pl) (hcl : levels[i + 1]? = some cl)
    (hpv : Row.get r pl = none) (hcv : Row.get r cl = some c) :
    c ∈ (buildGraph records levels labels).nodes ∧
      edgeAt r levels labels i = none ∧
      buildGraph [rowS] ["SOI", "Subsystem"] ["has subsystem"] = ⟨["S"], []⟩ := by
  refine ⟨?_, ?_, by decide⟩
  · rw [mem_nodes_buildGraph]
    exact ⟨r, hr, (mem_rowValues r levels c).mpr
      ⟨cl, mem_of_getElem?_aux levels (i + 1) cl hcl, hcv⟩⟩
  · cases hlab : labels[i]? <;> simp [edgeAt, hpl, hcl, hpv, hlab]

/-- Witness for C2 at a record with an absent SOI parent and a present
Subsystem child. -/
theorem absent_parent_no_edge_witness :
    "B" ∈ (buildGraph [rowChildOnly] ["SOI", "Subsystem"] ["has subsystem"]).nodes ∧
      edgeAt rowChildOnly ["SOI", "Subsystem"] ["has subsystem"] 0 = none ∧
      buildGraph [rowS] ["SOI", "Subsystem"] ["has subsystem"] = ⟨["S"], []⟩ :=
  absent_parent_no_edge [rowChildOnly] rowChildOnly ["SOI", "Subsystem"] ["has subsystem"]
    0 "SOI" "Subsystem" "B" (by decide) (by decide) (by decide) (by decide) (by decide)

/-- C10: an absent intermediate level is never bridged: with the middle of three
consecutive levels absent, both outer values become nodes but the record
generates no edge at either adjacent level pair; every edge of the graph comes
from some record at some consecutive level pair with that pair's label; the
concrete record with SOI S and Assembly A but Subsystem absent yields no edge
from S to A under any label. -/
theorem no_gap_bridging (records : List Row) (r : Row) (levels labels : List String)
    (i : Nat) (pl ml cl a b : String) (hr : r ∈ records)
    (hpl : levels[i]? = some pl) (hml : levels[i + 1]? = some ml)
    (hcl : levels[i + 2]? = some cl)
    (hva : Row.get r pl = some a) (hvm : Row.get r ml = none)
    (hvb : Row.get r cl = some b) :
    a ∈ (buildGraph records levels labels).nodes ∧
      b ∈ (buildGraph records levels labels).nodes ∧
      edgeAt r levels labels i = none ∧
      edgeAt r levels labels (i + 1) = none ∧
      (∀ e ∈ (buildGraph records levels labels).edges,
        ∃ r2 ∈ records, ∃ j, edgeAt r2 levels labels j = some e) ∧
      (∀ lab, ("S", "A", lab) ∉
        (buildGraph [rowGap] ["SOI", "Subsystem", "Assembly"]
          ["has subsystem", "has assembly"]).edges) := by
  refine ⟨?_, ?_, ?_, ?_, ?_, ?_⟩
  · rw [mem_nodes_buildGraph]
    exact ⟨r, hr, (mem_rowValues r levels a).mpr
      ⟨pl, mem_of_getElem?_aux levels i pl hpl, hva⟩⟩
  · rw [mem_nodes_buildGraph]
    exact ⟨r, hr, (mem_rowValues r levels b).mpr
      ⟨cl, mem_of_getElem?_aux levels (i + 2) cl hcl, hvb⟩⟩
  · cases hlab : labels[i]? <;> simp [edgeAt, hpl, hml, hva, hvm, hlab]
  · cases hlab : labels[i + 1]? <;> simp [edgeAt, hml, hcl, hvm, hlab]
  · intro e he
    rw [mem_edges_buildGraph] at he
    obtain ⟨r2, h2, hre⟩ := he
    exact ⟨r2, h2, (mem_rowEdges_iff r2 levels labels e).mp hre⟩
  · intro lab
    have hg : buildGraph [rowGap] ["SOI", "Subsystem", "Assembly"]
        ["has subsystem", "has assembly"] = ⟨["S", "A"], []⟩ := by decide
    rw [hg]
    simp

/-- Witness for C10 at the concrete gap record. -/
theorem no_gap_bridging_witness :
    "S" ∈ (buildGraph [rowGap] ["SOI", "Subsystem", "Assembly"]
        ["has subsystem", "has assembly"]).nodes ∧
      "A" ∈ (buildGraph [rowGap] ["SOI", "Subsystem", "Assembly"]
        ["has subsystem", "has assembly"]).nodes ∧
      edgeAt rowGap ["SOI", "Subsystem", "Assembly"] ["has subsystem", "has assembly"] 0
        = none ∧
      edgeAt rowGap ["SOI", "Subsystem", "Assembly"] ["has subsystem", "has assembly"] 1
        = none ∧
      (∀ e ∈ (buildGraph [rowGap] ["SOI", "Subsystem", "Assembly"]
          ["has subsystem", "has assembly"]).edges,
        ∃ r2 ∈ [rowGap], ∃ j, edgeAt r2 ["SOI", "Subsystem", "Assembly"]
          ["has subsystem", "has assembly"] j = some e) ∧
      (∀ lab, ("S", "A", lab) ∉
        (buildGraph [rowGap] ["SOI", "Subsystem", "Assembly"]
          ["has subsystem", "has assembly"]).edges) :=
  no_gap_bridging [rowGap] rowGap ["SOI", "Subsystem", "Assembly"]
    ["has subsystem", "has assembly"] 0 "SOI" "Subsystem" "Assembly" "S" "A"
    (by decide) (by decide) (by decide) (by decide) (by decide) (by decide) (by decide)

/-- C3: the builder fails with SchemaError exactly when the label count differs
from the level count minus one; with matching counts it returns the built graph
and never fails, in particular returning the empty graph on an empty record
sequence, and absent values cause no failure. -/
theorem build_schemaError_iff (records : List Row) (levels labels : List String) :
    (build records levels labels = .error .SchemaError ↔
      (labels.length : Int) ≠ (levels.length : Int) - 1) ∧
    ((labels.length : Int) = (levels.length : Int) - 1 →
      build records levels labels = .ok (buildGraph records levels labels)) ∧
    ((labels.length : Int) = (levels.length : Int) - 1 →
      build [] levels labels = .ok ⟨[], []⟩) := by
  unfold build
  by_cases h : (labels.length : Int) = (levels.length : Int) - 1
  · simp [h, buildGraph]
  · simp [h]

/-- A project descriptor as `show_tab` reads it: the data directory, the
optional profile-specific renderer namespace (the source dictionary's
module_prefix key) and the optional profile name. -/
structure Project where
  folder : String
  module_prefix : Option String
  profile : Option String

/-- The outcome of `importlib.import_module` on a candidate module name:
either it succeeds and the module does or does not expose a `render`
attribute, or it raises (any exception whatsoever). -/
inductive ImportResult
  | found (hasRender : Bool)
  | failed
deriving DecidableEq

/-- One observable rendering action of the dispatcher: the centralized home
renderer, a dynamically imported module's render call, the debug line printed
when an import raises, a CSV shown as a table, or the informational
missing-file placeholder. -/
inductive RenderAction
  | homeRender
  | moduleRender (name : String)
  | debugLog (name : String)
  | dataframe (path : String)
  | infoMissing (base : String)
deriving DecidableEq

/-- One iteration of the generic fallback loop (app.py lines 198-204): show
the base's CSV as a table when the file exists under the project folder, else
emit the informational placeholder naming the missing JSON. -/
def fallbackStep (fileExists : String → Bool) (folder : String) (acc : List RenderAction)
    (base : String) : List RenderAction :=
  let csv_path := folder ++ "/" ++ base ++ ".csv"
  if fileExists csv_path then acc ++ [RenderAction.dataframe csv_path]
  else acc ++ [RenderAction.infoMissing base]

/-- The generic CSV-preview fallback of `show_tab`: the loop
`for base in required_files_for_view(tab_name, profile)` run over every
required base name in order. -/
def genericFallback (fileExists : String → Bool) (folder : String)
    (bases : List String) : List RenderAction :=
  bases.foldl (fallbackStep fileExists folder) []

/-- The dynamic-import candidate `show_tab` tries: the profile namespace dotted
with the normalized tab name when the project carries one, else the bare
normalized name in the root namespace. -/
def candidateName (norm : String → String) (project : Project) (tab_name : String) : String :=
  match project.module_prefix with
  | some mp => mp ++ "." ++ norm tab_name
  | none => norm tab_name

/-- The dispatcher `show_tab` of app.py lines 154-204 as a function from the
ambient environment to the ordered list of rendering actions it performs:
`imp` is the outcome of a dynamic import, `norm` the external
view_name_to_module_name collaborator, `requiredFiles` the external
required_files_for_view mapping and `fileExists` the file system. The
surrounding `try` catches every exception an import raises and prints one
debug line, so the dispatcher is total; a successfully imported module that
lacks a render attribute falls through silently (no exception, no print).
When the project has no profile namespace the same lookup is attempted against
the root namespace instead, with the same fallthrough. -/
def show_tab (imp : String → ImportResult) (norm : String → String)
    (requiredFiles : String → Option String → List String) (fileExists : String → Bool)
    (tab_name : String) (project : Project) : List RenderAction :=
  if tab_name = "Home Page" then [RenderAction.homeRender]
  else
    match project.module_prefix with
    | some mp =>
      let candidate := mp ++ "." ++ norm tab_name
      match imp candidate with
      | .found true => [RenderAction.moduleRender candidate]
      | .found false =>
        genericFallback fileExists project.folder (requiredFiles tab_name project.profile)
      | .failed =>
        RenderAction.debugLog candidate ::
          genericFallback fileExists project.folder (requiredFiles tab_name project.profile)
    | none =>
      let modname := norm tab_name
      match imp modname with
      | .found true => [RenderAction.moduleRender modname]
      | .found false =>
        genericFallback fileExists project.folder (requiredFiles tab_name project.profile)
      | .failed =>
        RenderAction.debugLog modname ::
          genericFallback fileExists project.folder (requiredFiles tab_name project.profile)

/-- C6: dispatching the reserved Home Page tab always performs exactly the
centralized home render, for every import environment, normalization,
required-files mapping, file system and project descriptor: no lookup step and
no fallback is ever attempted for this tab name. -/
theorem home_page_sentinel (imp : String → ImportResult) (norm : String → String)
    (requiredFiles : String → Option String → List String) (fileExists : String → Bool)
    (project : Project) :
    show_tab imp norm requiredFiles fileExists "Home Page" project = [RenderAction.homeRender] := rfl

lemma genericFallback_foldl (fileExists : String → Bool) (folder : String) :
    ∀ (bases : List String) (acc : List RenderAction),
      bases.foldl (fallbackStep fileExists folder) acc =
        acc ++ bases.map (fun base =>
          if fileExists (folder ++ "/" ++ base ++ ".csv")
          then RenderAction.dataframe (folder ++ "/" ++ base ++ ".csv")
          else RenderAction.infoMissing base) := by
  intro bases
  induction bases with
  | nil => intro acc; simp
  | cons b bs ih =>
    intro acc
    simp only [List.foldl_cons, List.map_cons, ih, fallbackStep]
    split <;> simp

/-- C7: the generic fallback enumerates every required base name, in order and
exactly once, never stopping at the first hit or miss: its action list is the
map that shows the base's CSV as a table when the file exists and otherwise
the placeholder naming the missing JSON, so it has one action per base. -/
theorem generic_fallback_all_bases (fileExists : String → Bool) (folder : String)
    (bases : List String) :
    genericFallback fileExists folder bases =
      bases.map (fun base =>
        if fileExists (folder ++ "/" ++ base ++ ".csv")
        then RenderAction.dataframe (folder ++ "/" ++ base ++ ".csv")
        else RenderAction.infoMissing base) ∧
    (genericFallback fileExists folder bases).length = bases.length := by
  have h := genericFallback_foldl fileExists folder bases []
  rw [List.nil_append] at h
  refine ⟨by rw [genericFallback]; exact h, ?_⟩
  rw [genericFallback, h, List.length_map]

/-- C5 counterexample: when the profile-specific candidate module imports
successfully but exposes no render attribute, the dispatcher proceeds straight
to the generic fallback without recording any failure, so the claim that every
resolution failure is recorded before falling through is false on the code. -/
theorem resolution_failure_recorded_cex :
    show_tab (fun _ => ImportResult.found false) id (fun _ _ => ["ReqA"]) (fun _ => false)
      "Arch" ⟨"proj", some "catapult", none⟩ = [RenderAction.infoMissing "ReqA"] ∧
    ∀ s, RenderAction.debugLog s ∉
      show_tab (fun _ => ImportResult.found false) id (fun _ _ => ["ReqA"]) (fun _ => false)
        "Arch" ⟨"proj", some "catapult", none⟩ := by
  have h : show_tab (fun _ => ImportResult.found false) id (fun _ _ => ["ReqA"])
      (fun _ => false) "Arch" ⟨"proj", some "catapult", none⟩
      = [RenderAction.infoMissing "ReqA"] := by rfl
  refine ⟨h, fun s hmem => ?_⟩
  rw [h] at hmem
  simp at hmem

/-- C5 (amended): resolution failures are non-fatal and fall through to the
generic tabular preview rather than propagating: an import that raises is
recorded with a debug line and followed by the full fallback, while a located
module without the render capability falls through to the fallback silently. -/
theorem resolution_failure_fallthrough (imp : String → ImportResult) (norm : String → String)
    (requiredFiles : String → Option String → List String) (fileExists : String → Bool)
    (tab_name : String) (project : Project) (h : tab_name ≠ "Home Page") :
    (imp (candidateName norm project tab_name) = .failed →
      show_tab imp norm requiredFiles fileExists tab_name project =
        RenderAction.debugLog (candidateName norm project tab_name) ::
          genericFallback fileExists project.folder (requiredFiles tab_name project.profile)) ∧
    (imp (candidateName norm project tab_name) = .found false →
      show_tab imp norm requiredFiles fileExists tab_name project =
        genericFallback fileExists project.folder (requiredFiles tab_name project.profile)) := by
  unfold show_tab candidateName
  rw [if_neg h]
  cases hmp : project.module_prefix with
  | none =>
    refine ⟨fun hi => ?_, fun hi => ?_⟩ <;> dsimp only at hi ⊢ <;> rw [hi]
  | some mp =>
    refine ⟨fun hi => ?_, fun hi => ?_⟩ <;> dsimp only at hi ⊢ <;> rw [hi]

/-- Witness for C5's amended claim at a concrete failing import environment. -/
theorem resolution_failure_fallthrough_witness :
    (ImportResult.failed = ImportResult.failed →
      show_tab (fun _ => ImportResult.failed) id (fun _ _ => ["ReqA"]) (fun _ => false)
          "Arch" ⟨"proj", some "catapult", none⟩ =
        RenderAction.debugLog (candidateName id ⟨"proj", some "catapult", none⟩ "Arch") ::
          genericFallback (fun _ => false) "proj" ["ReqA"]) ∧
    (ImportResult.failed = ImportResult.found false →
      show_tab (fun _ => ImportResult.failed) id (fun _ _ => ["ReqA"]) (fun _ => false)
          "Arch" ⟨"proj", some "catapult", none⟩ =
        genericFallback (fun _ => false) "proj" ["ReqA"]) :=
  resolution_failure_fallthrough (fun _ => ImportResult.failed) id (fun _ _ => ["ReqA"])
    (fun _ => false) "Arch" ⟨"proj", some "catapult", none⟩ (by decide)
